import Mathlib

/-!
Verification of the agent-health streaming event pipeline.

The development embeds, from the TypeScript source:
- the JSON value domain produced by JSON.parse, together with the JavaScript
  behaviours the read loops rely on (property access, truthiness, string
  coercion);
- the per-line frame unwrapping of the two benchmark read loops
  (callOasisAgent in benchmark-mtbench.ts and in the tau-bench script):
  "data: " prefixed lines, the inference_results[0].output envelope, the
  output entry named "response", and its dataAsMap.content payload;
- the two event folds over decoded AG-UI events (the MT-Bench one keeping
  fullResponse/currentMessage, the tau-bench one additionally keeping the
  toolsUsed list), the per-chunk newline splitting, and the surrounding
  HTTP setup checks;
- the trajectory converter used by OllyConnector, whose implementation is
  not part of the sources at hand and is therefore modelled from the spec.

Machine text (the contents of JavaScript strings at runtime) is modelled as
List Char; stream chunks are the already UTF-8-decoded text chunks, which is
faithful because TextDecoder with the stream option reassembles split code
points but the loops split each decoded chunk on newlines separately.
-/

/-- The domain of values returned by JSON.parse. Numbers keep their source
lexeme: the pipeline under study never computes with a number, it only tests
truthiness and coerces to text, and both are decided by the lexeme. -/
inductive Json where
  | null : Json
  | bool : Bool → Json
  | num : String → Json
  | str : String → Json
  | arr : List Json → Json
  | obj : List (String × Json) → Json

mutual

/-- Boolean test deciding structural equality of JSON values. -/
def eqbVal : Json → Json → Bool
  | Json.null, Json.null => true
  | Json.bool a, Json.bool b => a == b
  | Json.num a, Json.num b => a == b
  | Json.str a, Json.str b => a == b
  | Json.arr a, Json.arr b => eqbArr a b
  | Json.obj a, Json.obj b => eqbObj a b
  | _, _ => false

/-- Boolean equality of array element lists, in lockstep with eqbVal. -/
def eqbArr : List Json → List Json → Bool
  | [], [] => true
  | a :: l1, b :: l2 => eqbVal a b && eqbArr l1 l2
  | _, _ => false

/-- Boolean equality of object field lists, in lockstep with eqbVal. -/
def eqbObj : List (String × Json) → List (String × Json) → Bool
  | [], [] => true
  | (k, v) :: l1, (l, w) :: l2 => k == l && eqbVal v w && eqbObj l1 l2
  | _, _ => false

end

mutual

/-- Values the boolean test calls equal are equal. Constructor mismatches
make the test compute to false, so those cases have no true hypothesis. -/
theorem eqbVal_eq : ∀ a b : Json, eqbVal a b = true → a = b
  | Json.null, Json.null, _ => rfl
  | Json.bool a, Json.bool b, h => by
    have hab : a = b := by simpa [eqbVal] using h
    rw [hab]
  | Json.num a, Json.num b, h => by
    have hab : a = b := by simpa [eqbVal] using h
    rw [hab]
  | Json.str a, Json.str b, h => by
    have hab : a = b := by simpa [eqbVal] using h
    rw [hab]
  | Json.arr a, Json.arr b, h => by
    rw [eqbArr_eq a b (by simpa [eqbVal] using h)]
  | Json.obj a, Json.obj b, h => by
    rw [eqbObj_eq a b (by simpa [eqbVal] using h)]
  | Json.bool _, Json.null, h => nomatch h
  | Json.num _, Json.null, h => nomatch h
  | Json.str _, Json.null, h => nomatch h
  | Json.arr _, Json.null, h => nomatch h
  | Json.obj _, Json.null, h => nomatch h
  | Json.null, Json.bool _, h => nomatch h
  | Json.num _, Json.bool _, h => nomatch h
  | Json.str _, Json.bool _, h => nomatch h
  | Json.arr _, Json.bool _, h => nomatch h
  | Json.obj _, Json.bool _, h => nomatch h
  | Json.null, Json.num _, h => nomatch h
  | Json.bool _, Json.num _, h => nomatch h
  | Json.str _, Json.num _, h => nomatch h
  | Json.arr _, Json.num _, h => nomatch h
  | Json.obj _, Json.num _, h => nomatch h
  | Json.null, Json.str _, h => nomatch h
  | Json.bool _, Json.str _, h => nomatch h
  | Json.num _, Json.str _, h => nomatch h
  | Json.arr _, Json.str _, h => nomatch h
  | Json.obj _, Json.str _, h => nomatch h
  | Json.null, Json.arr _, h => nomatch h
  | Json.bool _, Json.arr _, h => nomatch h
  | Json.num _, Json.arr _, h => nomatch h
  | Json.str _, Json.arr _, h => nomatch h
  | Json.obj _, Json.arr _, h => nomatch h
  | Json.null, Json.obj _, h => nomatch h
  | Json.bool _, Json.obj _, h => nomatch h
  | Json.num _, Json.obj _, h => nomatch h
  | Json.str _, Json.obj _, h => nomatch h
  | Json.arr _, Json.obj _, h => nomatch h

/-- Element lists the boolean test calls equal are equal. -/
theorem eqbArr_eq : ∀ l1 l2 : List Json, eqbArr l1 l2 = true → l1 = l2
  | [], [], _ => rfl
  | a :: l1, b :: l2, h => by
    have hs : eqbVal a b = true ∧ eqbArr l1 l2 = true := by simpa [eqbArr] using h
    rw [eqbVal_eq a b hs.1, eqbArr_eq l1 l2 hs.2]
  | [], _ :: _, h => nomatch h
  | _ :: _, [], h => nomatch h

/-- Field lists the boolean test calls equal are equal. -/
theorem eqbObj_eq : ∀ l1 l2 : List (String × Json), eqbObj l1 l2 = true → l1 = l2
  | [], [], _ => rfl
  | (k, v) :: l1, (l, w) :: l2, h => by
    have hs : (k = l ∧ eqbVal v w = true) ∧ eqbObj l1 l2 = true := by
      simpa [eqbObj, and_assoc] using h
    rw [hs.1.1, eqbVal_eq v w hs.1.2, eqbObj_eq l1 l2 hs.2]
  | [], _ :: _, h => nomatch h
  | _ :: _, [], h => nomatch h

end

mutual

/-- The boolean test is reflexive. -/
theorem eqbVal_refl : ∀ a : Json, eqbVal a a = true
  | Json.null => rfl
  | Json.bool a => by simp [eqbVal]
  | Json.num a => by simp [eqbVal]
  | Json.str a => by simp [eqbVal]
  | Json.arr a => by simpa [eqbVal] using eqbArr_refl a
  | Json.obj a => by simpa [eqbVal] using eqbObj_refl a

/-- The boolean test on element lists is reflexive. -/
theorem eqbArr_refl : ∀ l : List Json, eqbArr l l = true
  | [] => rfl
  | a :: l => by simp [eqbArr, eqbVal_refl a, eqbArr_refl l]

/-- The boolean test on field lists is reflexive. -/
theorem eqbObj_refl : ∀ l : List (String × Json), eqbObj l l = true
  | [] => rfl
  | (k, v) :: l => by simp [eqbObj, eqbVal_refl v, eqbObj_refl l]

end

instance : DecidableEq Json := fun a b =>
  if h : eqbVal a b = true then isTrue (eqbVal_eq a b h)
  else isFalse (fun he => h (he ▸ eqbVal_refl a))

/-- Property lookup on the field list of a parsed JSON object. JSON.parse
assigns repeated keys in textual order, so the last occurrence wins. -/
def lookupLast : List (String × Json) → String → Option Json
  | [], _ => none
  | (k, v) :: rest, key =>
    match lookupLast rest key with
    | some w => some w
    | none => if k = key then some v else none

/-- JavaScript property access `v.key` as used by the read loops, returning
none both for an absent property (undefined) and for access on a primitive.
The loops only ever reach such an access where a throw on null has the same
observable effect as an undefined result (the whole frame is skipped), so
one Option covers both. -/
def jprop : Json → String → Option Json
  | Json.obj fields, key => lookupLast fields key
  | _, _ => none

/-- Whether a JSON number lexeme denotes zero: its mantissa (everything
before any exponent marker) has no nonzero digit. -/
def numLexemeIsZero (s : String) : Bool :=
  (s.toList.takeWhile (fun c => c != 'e' && c != 'E')).all
    (fun c => !(decide ('1' ≤ c) && decide (c ≤ '9')))

/-- JavaScript truthiness of a JSON value. -/
def truthy : Json → Bool
  | Json.null => false
  | Json.bool b => b
  | Json.num lexeme => !numLexemeIsZero lexeme
  | Json.str s => s ≠ ""
  | Json.arr _ => true
  | Json.obj _ => true

/-- JavaScript truthiness of a possibly-undefined value. -/
def truthyOpt : Option Json → Bool
  | some v => truthy v
  | none => false

mutual

/-- JavaScript string coercion of a JSON value, as performed by string
concatenation and by JSON.parse on a non-string argument. -/
def jsToChars : Json → List Char
  | Json.null => ("null").toList
  | Json.bool true => ("true").toList
  | Json.bool false => ("false").toList
  | Json.num lexeme => lexeme.toList
  | Json.str s => s.toList
  | Json.arr l => jsArrChars l
  | Json.obj _ => ("[object Object]").toList

/-- Array.prototype.toString: elements joined by commas, null elements
rendered empty. -/
def jsArrChars : List Json → List Char
  | [] => []
  | [Json.null] => []
  | [x] => jsToChars x
  | Json.null :: xs => ',' :: jsArrChars xs
  | x :: xs => jsToChars x ++ ',' :: jsArrChars xs

end

/-- JavaScript string coercion packaged as a String; a string value coerces
to itself. -/
def jsCoerceStr : Json → String
  | Json.str s => s
  | v => String.mk (jsToChars v)

/-- JSON insignificant whitespace. -/
def isJsonWs (c : Char) : Bool :=
  c = ' ' || c = '\n' || c = '\t' || c = '\r'

/-- Drop leading JSON whitespace. -/
def skipWs (l : List Char) : List Char :=
  l.dropWhile isJsonWs

/-- Decimal digit test. -/
def isDigitChar (c : Char) : Bool :=
  decide ('0' ≤ c) && decide (c ≤ '9')

/-- Value of a hexadecimal digit. -/
def hexVal (c : Char) : Option Nat :=
  if decide ('0' ≤ c) && decide (c ≤ '9') then some (c.toNat - 48)
  else if decide ('a' ≤ c) && decide (c ≤ 'f') then some (c.toNat - 87)
  else if decide ('A' ≤ c) && decide (c ≤ 'F') then some (c.toNat - 70)
  else none

/-- Translation of a single-character string escape. -/
def escChar : Char → Option Char
  | '"' => some '"'
  | '\\' => some '\\'
  | '/' => some '/'
  | 'b' => some (Char.ofNat 8)
  | 'f' => some (Char.ofNat 12)
  | 'n' => some '\n'
  | 'r' => some '\r'
  | 't' => some '\t'
  | _ => none

/-- Four hexadecimal digits of a unicode escape. -/
def parseHex4 : List Char → Option (Nat × List Char)
  | a :: b :: c :: d :: rest => do
    let x ← hexVal a
    let y ← hexVal b
    let z ← hexVal c
    let w ← hexVal d
    some (((x * 16 + y) * 16 + z) * 16 + w, rest)
  | _ => none

/-- Body of a JSON string after the opening quote: the decoded characters
and the input following the closing quote. Escapes of UTF-16 surrogates are
rejected rather than paired, a deliberate narrowing that no input in this
development exercises. -/
def parseStrBody : Nat → List Char → Option (List Char × List Char)
  | 0, _ => none
  | _ + 1, [] => none
  | fuel + 1, c :: cs =>
    if c = '"' then some ([], cs)
    else if c = '\\' then
      match cs with
      | 'u' :: rest => do
        let (n, r) ← parseHex4 rest
        if 55296 ≤ n ∧ n ≤ 57343 then none
        else do
          let (body, r2) ← parseStrBody fuel r
          some (Char.ofNat n :: body, r2)
      | e :: rest => do
        let ch ← escChar e
        let (body, r2) ← parseStrBody fuel rest
        some (ch :: body, r2)
      | [] => none
    else if c.toNat < 32 then none
    else do
      let (body, r2) ← parseStrBody fuel cs
      some (c :: body, r2)

/-- Integer part of a JSON number: a single zero, or a nonzero digit
followed by digits. -/
def parseIntDigits : List Char → Option (List Char × List Char)
  | '0' :: rest => some (['0'], rest)
  | c :: rest =>
    if decide ('1' ≤ c) && decide (c ≤ '9') then
      some (c :: rest.takeWhile isDigitChar, rest.dropWhile isDigitChar)
    else none
  | [] => none

/-- Optional fraction part of a JSON number. -/
def parseFracDigits : List Char → Option (List Char × List Char)
  | '.' :: rest =>
    match rest.takeWhile isDigitChar with
    | [] => none
    | ds => some ('.' :: ds, rest.dropWhile isDigitChar)
  | other => some ([], other)

/-- Optional exponent part of a JSON number. -/
def parseExpDigits : List Char → Option (List Char × List Char)
  | c :: rest =>
    if c = 'e' ∨ c = 'E' then
      match rest with
      | s :: rest2 =>
        if s = '+' ∨ s = '-' then
          match rest2.takeWhile isDigitChar with
          | [] => none
          | ds => some (c :: s :: ds, rest2.dropWhile isDigitChar)
        else
          match rest.takeWhile isDigitChar with
          | [] => none
          | ds => some (c :: ds, rest.dropWhile isDigitChar)
      | [] => none
    else some ([], c :: rest)
  | [] => some ([], [])

/-- Lexeme of a JSON number, kept as written. -/
def parseNumLexeme (l : List Char) : Option (List Char × List Char) :=
  match l with
  | '-' :: rest => do
    let (ip, r1) ← parseIntDigits rest
    let (fp, r2) ← parseFracDigits r1
    let (ep, r3) ← parseExpDigits r2
    some ('-' :: ip ++ fp ++ ep, r3)
  | other => do
    let (ip, r1) ← parseIntDigits other
    let (fp, r2) ← parseFracDigits r1
    let (ep, r3) ← parseExpDigits r2
    some (ip ++ fp ++ ep, r3)

mutual

/-- A JSON value, by recursive descent with fuel. -/
def parseVal : Nat → List Char → Option (Json × List Char)
  | 0, _ => none
  | fuel + 1, input =>
    match skipWs input with
    | 'n' :: 'u' :: 'l' :: 'l' :: rest => some (Json.null, rest)
    | 't' :: 'r' :: 'u' :: 'e' :: rest => some (Json.bool true, rest)
    | 'f' :: 'a' :: 'l' :: 's' :: 'e' :: rest => some (Json.bool false, rest)
    | '"' :: rest => do
      let (body, r) ← parseStrBody (rest.length + 1) rest
      some (Json.str (String.mk body), r)
    | '[' :: rest =>
      (match skipWs rest with
       | ']' :: r => some (Json.arr [], r)
       | other => do
         let (elems, r) ← parseElems fuel other
         some (Json.arr elems, r))
    | '{' :: rest =>
      (match skipWs rest with
       | '}' :: r => some (Json.obj [], r)
       | other => do
         let (fields, r) ← parseFields fuel other
         some (Json.obj fields, r))
    | other => do
      let (lexeme, r) ← parseNumLexeme other
      some (Json.num (String.mk lexeme), r)

/-- The comma-separated elements of a nonempty JSON array, up to and
including the closing bracket. -/
def parseElems : Nat → List Char → Option (List Json × List Char)
  | 0, _ => none
  | fuel + 1, input => do
    let (v, r) ← parseVal fuel input
    match skipWs r with
    | ',' :: r2 => do
      let (vs, r3) ← parseElems fuel r2
      some (v :: vs, r3)
    | ']' :: r2 => some ([v], r2)
    | _ => none

/-- The comma-separated fields of a nonempty JSON object, up to and
including the closing brace. -/
def parseFields : Nat → List Char → Option (List (String × Json) × List Char)
  | 0, _ => none
  | fuel + 1, input =>
    match skipWs input with
    | '"' :: rest => do
      let (key, r) ← parseStrBody (rest.length + 1) rest
      match skipWs r with
      | ':' :: r2 => do
        let (v, r3) ← parseVal fuel r2
        (match skipWs r3 with
         | ',' :: r4 => do
           let (fs, r5) ← parseFields fuel r4
           some ((String.mk key, v) :: fs, r5)
         | '}' :: r4 => some ([(String.mk key, v)], r4)
         | _ => none)
      | _ => none
    | _ => none

end

/-- Model of JSON.parse on decoded text: one JSON value covering the whole
input, up to surrounding whitespace; anything else is a parse failure. -/
def jsonParse (l : List Char) : Option Json := do
  let (v, rest) ← parseVal (2 * l.length + 8) l
  if skipWs rest = [] then some v else none

/-- The characters of the SSE line marker checked by line.startsWith. -/
def dataMarker : List Char := ("data: ").toList

/-- The first element of `outputs` whose name property strictly equals
"response", mirroring outputs.find. The outer none records the TypeError
thrown when the property access in the callback hits a null element, which
the enclosing catch turns into skipping the frame. -/
def findResponseOutput : List Json → Option (Option Json)
  | [] => some none
  | Json.null :: _ => none
  | o :: rest =>
    if jprop o ("name") = some (Json.str ("response")) then some (some o)
    else findResponseOutput rest

/-- JavaScript index access `v?.[0]` as used on inference_results. -/
def jindexZero : Json → Option Json
  | Json.arr l => l.head?
  | Json.obj fields => lookupLast fields ("0")
  | _ => none

/-- Unwrapping of one parsed frame envelope, from both read loops:
data.inference_results?.[0]?.output must be truthy, outputs.find picks the
entry named "response", its dataAsMap.content must be truthy, and that
content is parsed (after string coercion) as the AG-UI event. Any miss,
mismatch, throw or parse failure yields no event. -/
def decodeFrameJson (data : Json) : Option Json := do
  let ir ← jprop data ("inference_results")
  let el ← jindexZero ir
  let output ← jprop el ("output")
  if truthy output then
    match output with
    | Json.arr outs => do
      let found ← findResponseOutput outs
      let respOut ← found
      let dm ← jprop respOut ("dataAsMap")
      let content ← jprop dm ("content")
      if truthy content then jsonParse (jsToChars content) else none
    | _ => none
  else none

/-- One line of the stream: a "data: " line is stripped of its six-character
marker, parsed as JSON and unwrapped; any other line yields nothing. -/
def decodeDataLine (line : List Char) : Option Json :=
  if dataMarker.isPrefixOf line then
    match jsonParse (line.drop 6) with
    | some data => decodeFrameJson data
    | none => none
  else none

/-- Per-chunk newline split, as chunk.split. The result always has one more
group than the chunk has newlines; groups around the boundaries are empty. -/
def splitNl : List Char → List (List Char)
  | [] => [[]]
  | c :: cs =>
    if c = '\n' then [] :: splitNl cs
    else
      match splitNl cs with
      | g :: gs => (c :: g) :: gs
      | [] => [[c]]

/-- Accumulator of the MT-Bench read loop in callOasisAgent. -/
structure MTState where
  fullResponse : String
  currentMessage : String
deriving DecidableEq

/-- Initial accumulator of the MT-Bench read loop. -/
def mtInit : MTState := ⟨"", ""⟩

/-- Event handling of the MT-Bench read loop: a TEXT_MESSAGE_CONTENT event
with truthy delta appends the delta to currentMessage, a TEXT_MESSAGE_END
moves currentMessage into fullResponse, anything else changes nothing. -/
def mtProcessEvent (st : MTState) (ev : Json) : MTState :=
  if jprop ev ("type") = some (Json.str ("TEXT_MESSAGE_CONTENT"))
      ∧ truthyOpt (jprop ev ("delta")) then
    { st with currentMessage :=
        st.currentMessage ++ jsCoerceStr ((jprop ev ("delta")).getD Json.null) }
  else if jprop ev ("type") = some (Json.str ("TEXT_MESSAGE_END")) then
    { fullResponse := st.fullResponse ++ st.currentMessage, currentMessage := "" }
  else st

/-- One line in the MT-Bench loop: a decoded event is handled, everything
else (non-data lines, malformed frames) leaves the accumulator alone. -/
def mtProcessLine (st : MTState) (line : List Char) : MTState :=
  match decodeDataLine line with
  | some ev => mtProcessEvent st ev
  | none => st

/-- One transport chunk in the MT-Bench loop: the chunk alone is split on
newlines and each resulting line is handled. -/
def mtProcessChunk (st : MTState) (chunk : List Char) : MTState :=
  (splitNl chunk).foldl mtProcessLine st

/-- The whole MT-Bench read loop over the decoded transport chunks. -/
def mtRunChunks (chunks : List (List Char)) : MTState :=
  chunks.foldl mtProcessChunk mtInit

/-- The facts about an HTTP response the setup code inspects: its ok flag
and its body, the latter as the decoded text chunks the reader will yield. -/
structure HttpResponse where
  ok : Bool
  body : Option (List (List Char))

/-- Whitespace removed by String.prototype.trim. -/
def isJsTrimWs (c : Char) : Bool :=
  c = ' ' || c = '\t' || c = '\n' || c = '\r' ||
  c = Char.ofNat 11 || c = Char.ofNat 12 || c = Char.ofNat 160 || c = Char.ofNat 65279

/-- String.prototype.trim: whitespace dropped from both ends. -/
def jsTrim (s : String) : String :=
  String.mk (((s.toList.dropWhile isJsTrimWs).reverse.dropWhile isJsTrimWs).reverse)

/-- callOasisAgent of benchmark-mtbench.ts: reject a non-ok status, reject a
missing body, otherwise run the read loop, append any remaining message, and
return the trimmed text or the sentinel when the trimmed text is empty. The
latency measurement is dropped: no other part of the result depends on it. -/
def mtCallOasisAgent (resp : HttpResponse) : Except String String :=
  if resp.ok = false then Except.error ("Agent error")
  else
    match resp.body with
    | none => Except.error ("No response body")
    | some chunks =>
      let st := mtRunChunks chunks
      let full :=
        if st.currentMessage ≠ "" then st.fullResponse ++ st.currentMessage
        else st.fullResponse
      Except.ok (if jsTrim full = "" then ("No response received") else jsTrim full)

/-- Accumulator of the tau-bench read loop in callOasisAgent. The pushed
tool names are kept as the JSON values the code pushes. -/
structure TauState where
  fullResponse : String
  currentMessage : String
  toolsUsed : List Json
deriving DecidableEq

/-- Initial accumulator of the tau-bench read loop. -/
def tauInit : TauState := ⟨"", "", []⟩

/-- Event handling of the tau-bench read loop: first the tool tracking (a
TOOL_CALL_START with truthy toolCallName pushes the name), then the same
text handling as the MT-Bench loop. -/
def tauProcessEvent (st : TauState) (ev : Json) : TauState :=
  let st1 :=
    if jprop ev ("type") = some (Json.str ("TOOL_CALL_START"))
        ∧ truthyOpt (jprop ev ("toolCallName")) then
      { st with toolsUsed := st.toolsUsed ++ [(jprop ev ("toolCallName")).getD Json.null] }
    else st
  if jprop ev ("type") = some (Json.str ("TEXT_MESSAGE_CONTENT"))
      ∧ truthyOpt (jprop ev ("delta")) then
    { st1 with currentMessage :=
        st1.currentMessage ++ jsCoerceStr ((jprop ev ("delta")).getD Json.null) }
  else if jprop ev ("type") = some (Json.str ("TEXT_MESSAGE_END")) then
    { st1 with fullResponse := st1.fullResponse ++ st1.currentMessage, currentMessage := "" }
  else st1

/-- One line in the tau-bench loop. -/
def tauProcessLine (st : TauState) (line : List Char) : TauState :=
  match decodeDataLine line with
  | some ev => tauProcessEvent st ev
  | none => st

/-- One transport chunk in the tau-bench loop. -/
def tauProcessChunk (st : TauState) (chunk : List Char) : TauState :=
  (splitNl chunk).foldl tauProcessLine st

/-- The whole tau-bench read loop over the decoded transport chunks. -/
def tauRunChunks (chunks : List (List Char)) : TauState :=
  chunks.foldl tauProcessChunk tauInit

/-- callOasisAgent of the tau-bench script: reject a non-ok status or a
missing body, otherwise run the read loop and return fullResponse (without
flushing currentMessage) together with the tools list. -/
def tauCallOasisAgent (resp : HttpResponse) : Except String (String × List Json) :=
  if resp.ok = false ∨ resp.body = none then Except.error ("Agent request failed")
  else
    match resp.body with
    | none => Except.error ("Agent request failed")
    | some chunks =>
      let st := tauRunChunks chunks
      Except.ok (st.fullResponse, st.toolsUsed)

/-- A completed unit of agent behaviour in a trajectory. Modelled from the
spec: the sources at hand contain only the converter's callers, and the spec
exercises only text-message steps, produced when a text span closes. -/
inductive TrajectoryStep where
  | message : String → TrajectoryStep
deriving DecidableEq

/-- Modelled from the spec: the converter state of AGUIToTrajectoryConverter,
whose implementation is not among the sources at hand. It keeps the buffer
of the current text span and the side list of tool names captured at
TOOL_CALL_START, the parts of ConverterState the claims here depend on; the
identity fields and the raw-event log never influence the emitted steps. -/
structure ConverterState where
  currentMessageBuffer : String
  toolNames : List String
deriving DecidableEq

/-- Initial converter state: a fresh converter. -/
def converterInit : ConverterState := ⟨"", []⟩

/-- The delta field of an event as the string the spec-modelled converter
appends: the string payload when present, nothing otherwise. -/
def converterDelta (ev : Json) : String :=
  match jprop ev ("delta") with
  | some (Json.str s) => s
  | _ => ""

/-- The toolCallName field of an event as a string, when it is one. -/
def converterToolName (ev : Json) : Option String :=
  match jprop ev ("toolCallName") with
  | some (Json.str s) => some s
  | _ => none

/-- Modelled from the spec: processEvent of AGUIToTrajectoryConverter, not
among the sources at hand. TEXT_MESSAGE_CONTENT appends its delta to the
buffer and emits nothing; TEXT_MESSAGE_END emits one step holding the
accumulated text (possibly empty) and clears the buffer; TOOL_CALL_START
records the tool name into the side list, deferring any step emission, the
policy the spec leaves open and the observed callers suggest; every other
type, TEXT_MESSAGE_START included, changes nothing and emits nothing. -/
def processEvent (st : ConverterState) (ev : Json) : ConverterState × List TrajectoryStep :=
  if jprop ev ("type") = some (Json.str ("TEXT_MESSAGE_CONTENT")) then
    ({ st with currentMessageBuffer := st.currentMessageBuffer ++ converterDelta ev }, [])
  else if jprop ev ("type") = some (Json.str ("TEXT_MESSAGE_END")) then
    (⟨"", st.toolNames⟩, [TrajectoryStep.message st.currentMessageBuffer])
  else if jprop ev ("type") = some (Json.str ("TOOL_CALL_START")) then
    (match converterToolName ev with
     | some name => ({ st with toolNames := st.toolNames ++ [name] }, [])
     | none => (st, []))
  else (st, [])

/-- The step-collecting loop of OllyConnector.execute: each event is fed to
the converter and the emitted steps are appended to the trajectory. -/
def executeTrajectory (events : List Json) : List TrajectoryStep :=
  (events.foldl
    (fun acc ev =>
      let next := processEvent acc.1 ev
      (next.1, acc.2 ++ next.2))
    (converterInit, ([] : List TrajectoryStep))).2

/-- Modelled from the spec: the replay entry point
computeTrajectoryFromRawEvents, not among the sources at hand — a fresh
converter fed the captured events in original order, written as its own
recursion so that agreement with the live loop is a theorem, not a
definition. -/
def replayGo (st : ConverterState) : List Json → List TrajectoryStep
  | [] => []
  | ev :: rest =>
    let next := processEvent st ev
    next.2 ++ replayGo next.1 rest

/-- Modelled from the spec: computeTrajectoryFromRawEvents. -/
def computeTrajectoryFromRawEvents (events : List Json) : List TrajectoryStep :=
  replayGo converterInit events

/-- OllyConnector.parseResponse: re-processing stored raw events delegates
to computeTrajectoryFromRawEvents. -/
def parseResponse (rawEvents : List Json) : List TrajectoryStep :=
  computeTrajectoryFromRawEvents rawEvents

/-- The ordered sequence of events a chunked stream decodes to: every chunk
split on newlines, in order, each line put through the frame decoder. -/
def extractEvents (chunks : List (List Char)) : List Json :=
  ((chunks.map splitNl).flatten).filterMap decodeDataLine

/-- Whether the last character of a chunk is a newline, the alignment under
which per-chunk line splitting agrees with whole-stream line splitting. -/
def endsWithNl : List Char → Bool
  | [] => false
  | [c] => c == '\n'
  | _ :: cs => endsWithNl cs

/-- The delta a TEXT_MESSAGE_CONTENT event contributes in the claims'
reading: its delta field when that is a string, nothing from any other
event. -/
def contentDelta (ev : Json) : String :=
  if jprop ev ("type") = some (Json.str ("TEXT_MESSAGE_CONTENT")) then
    match jprop ev ("delta") with
    | some (Json.str s) => s
    | _ => ""
  else ""

/-- The claims' span text: the exact concatenation, in arrival order, of the
deltas of the TEXT_MESSAGE_CONTENT events of one span. -/
def spanDeltas : List Json → String
  | [] => ""
  | e :: g => contentDelta e ++ spanDeltas g

/-- Concatenation of the texts of a list of spans, in order. -/
def spansText : List (List Json) → String
  | [] => ""
  | g :: gs => spanDeltas g ++ spansText gs

/-- The completed spans of an event sequence: the segments closed by a
TEXT_MESSAGE_END, in arrival order; events after the last END belong to no
completed span. -/
def completedSpans : List Json → List (List Json)
  | [] => []
  | e :: es =>
    if jprop e ("type") = some (Json.str ("TEXT_MESSAGE_END")) then [] :: completedSpans es
    else
      match completedSpans es with
      | [] => []
      | g :: gs => (e :: g) :: gs

/-- The trailing open span of an event sequence: the events after the last
TEXT_MESSAGE_END. -/
def openSpan : List Json → List Json
  | [] => []
  | e :: es =>
    if jprop e ("type") = some (Json.str ("TEXT_MESSAGE_END")) then openSpan es
    else
      match completedSpans es with
      | [] => e :: openSpan es
      | _ :: _ => openSpan es

/-- The first completed span absorbs the text already buffered when the
fold starts; no completed span means no contribution at all. -/
def prependFirst (cur : String) : List (List Json) → String
  | [] => ""
  | g :: gs => cur ++ spanDeltas g ++ spansText gs

/-- An event whose delta field, if present, is a string — the typing under
which the claims' concatenation reading is exact. -/
def deltaIsStr (ev : Json) : Bool :=
  match jprop ev ("delta") with
  | some (Json.str _) => true
  | none => true
  | some _ => false

/-- Events that are well typed for the claims' reading: when the event is a
TEXT_MESSAGE_CONTENT, its delta field, if present, is a string. -/
def contentDeltaOk (ev : Json) : Bool :=
  if jprop ev ("type") = some (Json.str ("TEXT_MESSAGE_CONTENT")) then deltaIsStr ev else true

/-- Escaping applied when a JSON string is embedded inside another JSON
document, covering the characters the concrete inputs here use. -/
def jsonEscape : List Char → List Char
  | [] => []
  | c :: cs => if c = '"' ∨ c = '\\' then '\\' :: c :: jsonEscape cs else c :: jsonEscape cs

/-- A well-formed OASIS SSE frame line wrapping one AG-UI event, as in the
E2E scenario of the spec: the event JSON is embedded, escaped, as the
dataAsMap.content of the output entry named response. -/
def frameLine (eventJson : String) : List Char :=
  ("data: \x7b\"inference_results\":[\x7b\"output\":[\x7b\"name\":\"response\",\"dataAsMap\":\x7b\"content\":\"").toList
  ++ jsonEscape eventJson.toList
  ++ ("\"\x7d\x7d]\x7d]\x7d").toList

/-- A TEXT_MESSAGE_CONTENT event carrying delta "Hi". -/
def contentHiStr : String := "\x7b\"type\":\"TEXT_MESSAGE_CONTENT\",\"delta\":\"Hi\"\x7d"

/-- A TEXT_MESSAGE_CONTENT event carrying a whitespace-only delta. -/
def contentWsStr : String := "\x7b\"type\":\"TEXT_MESSAGE_CONTENT\",\"delta\":\"  \"\x7d"

/-- A TEXT_MESSAGE_CONTENT event whose delta is the sentinel text itself. -/
def contentSentinelStr : String :=
  "\x7b\"type\":\"TEXT_MESSAGE_CONTENT\",\"delta\":\"No response received\"\x7d"

/-- A TEXT_MESSAGE_END event. -/
def endEvStr : String := "\x7b\"type\":\"TEXT_MESSAGE_END\"\x7d"

/-- The one-chunk transport of a content frame followed by an end frame. -/
def c3whole : List Char :=
  frameLine contentHiStr ++ '\n' :: (frameLine endEvStr ++ ['\n'])

/-- The first twenty characters of the same bytes: a chunk boundary that
splits the content frame's line. -/
def c3partA : List Char := c3whole.take 20

/-- The remainder of the same bytes. -/
def c3partB : List Char := c3whole.drop 20

/-- A stream whose only event is an unterminated content delta. -/
def c4chunks : List (List Char) := [frameLine contentHiStr ++ ['\n']]

/-- The tool name a single event contributes in the claims' reading: the
toolCallName of a TOOL_CALL_START with a truthy name, nothing otherwise. -/
def toolNameOf (ev : Json) : Option Json :=
  if jprop ev ("type") = some (Json.str ("TOOL_CALL_START"))
      ∧ truthyOpt (jprop ev ("toolCallName")) then
    some ((jprop ev ("toolCallName")).getD Json.null)
  else none

/-- The steps the spec-modelled converter emits for a list of completed
spans, the first span's text prefixed by the already-buffered text. -/
def stepsFor (buf : String) : List (List Json) → List TrajectoryStep
  | [] => []
  | g :: gs => TrajectoryStep.message (buf ++ spanDeltas g) :: stepsFor "" gs


/-- The one-chunk transport of a whitespace-delta content frame followed by
an end frame. -/
def c10wsChunks : List (List Char) :=
  [frameLine contentWsStr ++ '\n' :: (frameLine endEvStr ++ ['\n'])]

/-- The one-chunk transport of a content frame carrying the sentinel text
itself, followed by an end frame. -/
def c10sentinelChunks : List (List Char) :=
  [frameLine contentSentinelStr ++ '\n' :: (frameLine endEvStr ++ ['\n'])]

/-- A decoded TEXT_MESSAGE_START event. -/
def evStart : Json := Json.obj [("type", Json.str ("TEXT_MESSAGE_START"))]

/-- A decoded TEXT_MESSAGE_CONTENT event with delta "Hel". -/
def evHel : Json :=
  Json.obj [("type", Json.str ("TEXT_MESSAGE_CONTENT")), ("delta", Json.str ("Hel"))]

/-- A decoded TEXT_MESSAGE_CONTENT event with delta "lo". -/
def evLo : Json :=
  Json.obj [("type", Json.str ("TEXT_MESSAGE_CONTENT")), ("delta", Json.str ("lo"))]

/-- A decoded TEXT_MESSAGE_CONTENT event with delta "Hi". -/
def evHi : Json :=
  Json.obj [("type", Json.str ("TEXT_MESSAGE_CONTENT")), ("delta", Json.str ("Hi"))]

/-- A decoded TEXT_MESSAGE_END event. -/
def evEnd : Json := Json.obj [("type", Json.str ("TEXT_MESSAGE_END"))]

/-- A decoded event of an unrecognized type. -/
def evUnknown : Json := Json.obj [("type", Json.str ("SOMETHING_UNKNOWN"))]

/-- A decoded TOOL_CALL_START event naming a tool. -/
def evToolA : Json :=
  Json.obj [("type", Json.str ("TOOL_CALL_START")), ("toolCallName", Json.str ("search_index"))]

/-- A decoded TOOL_CALL_START event with no tool name. -/
def evToolAnon : Json := Json.obj [("type", Json.str ("TOOL_CALL_START"))]

/-- A decoded TOOL_CALL_END event. -/
def evToolEnd : Json := Json.obj [("type", Json.str ("TOOL_CALL_END"))]

theorem decodeDataLine_empty : decodeDataLine [] = none := rfl

theorem mtProcessLine_empty (st : MTState) : mtProcessLine st [] = st := rfl

theorem tauProcessLine_empty (st : TauState) : tauProcessLine st [] = st := rfl

theorem mtProcessLine_none (st : MTState) (line : List Char)
    (h : decodeDataLine line = none) : mtProcessLine st line = st := by
  simp [mtProcessLine, h]

theorem tauProcessLine_none (st : TauState) (line : List Char)
    (h : decodeDataLine line = none) : tauProcessLine st line = st := by
  simp [tauProcessLine, h]

theorem foldl_lines_filterMap {σ : Type} (g : σ → Json → σ) :
    ∀ (ls : List (List Char)) (st : σ),
      ls.foldl (fun st l =>
        match decodeDataLine l with
        | some ev => g st ev
        | none => st) st
      = (ls.filterMap decodeDataLine).foldl g st := by
  intro ls
  induction ls with
  | nil => intro st; rfl
  | cons l ls ih =>
    intro st
    simp only [List.foldl_cons, List.filterMap_cons]
    cases h : decodeDataLine l with
    | none => simpa [h] using ih st
    | some ev => simpa [h] using ih (g st ev)

theorem mt_foldl_lines (ls : List (List Char)) (st : MTState) :
    ls.foldl mtProcessLine st = (ls.filterMap decodeDataLine).foldl mtProcessEvent st :=
  foldl_lines_filterMap mtProcessEvent ls st

theorem tau_foldl_lines (ls : List (List Char)) (st : TauState) :
    ls.foldl tauProcessLine st = (ls.filterMap decodeDataLine).foldl tauProcessEvent st :=
  foldl_lines_filterMap tauProcessEvent ls st

theorem mt_foldl_chunks :
    ∀ (chunks : List (List Char)) (st : MTState),
      chunks.foldl mtProcessChunk st = ((chunks.map splitNl).flatten).foldl mtProcessLine st := by
  intro chunks
  induction chunks with
  | nil => intro st; rfl
  | cons c cs ih =>
    intro st
    simp only [List.foldl_cons, List.map_cons, List.flatten_cons, List.foldl_append]
    exact ih (mtProcessChunk st c)

theorem tau_foldl_chunks :
    ∀ (chunks : List (List Char)) (st : TauState),
      chunks.foldl tauProcessChunk st = ((chunks.map splitNl).flatten).foldl tauProcessLine st := by
  intro chunks
  induction chunks with
  | nil => intro st; rfl
  | cons c cs ih =>
    intro st
    simp only [List.foldl_cons, List.map_cons, List.flatten_cons, List.foldl_append]
    exact ih (tauProcessChunk st c)

theorem mtRunChunks_factor (chunks : List (List Char)) :
    mtRunChunks chunks = (extractEvents chunks).foldl mtProcessEvent mtInit := by
  unfold mtRunChunks extractEvents
  rw [mt_foldl_chunks, mt_foldl_lines]

theorem tauRunChunks_factor (chunks : List (List Char)) :
    tauRunChunks chunks = (extractEvents chunks).foldl tauProcessEvent tauInit := by
  unfold tauRunChunks extractEvents
  rw [tau_foldl_chunks, tau_foldl_lines]

theorem executeTrajectory_go :
    ∀ (es : List Json) (st : ConverterState) (acc : List TrajectoryStep),
      (es.foldl
        (fun acc ev =>
          let next := processEvent acc.1 ev
          (next.1, acc.2 ++ next.2))
        (st, acc)).2 = acc ++ replayGo st es := by
  intro es
  induction es with
  | nil => intro st acc; simp [replayGo]
  | cons ev es ih =>
    intro st acc
    simp only [List.foldl_cons, replayGo]
    rw [ih, List.append_assoc]

theorem executeTrajectory_eq_replay (events : List Json) :
    executeTrajectory events = parseResponse events := by
  unfold executeTrajectory parseResponse computeTrajectoryFromRawEvents
  simpa using executeTrajectory_go events converterInit []

theorem mtProcessEvent_end (st : MTState) (ev : Json)
    (h : jprop ev ("type") = some (Json.str ("TEXT_MESSAGE_END"))) :
    mtProcessEvent st ev = ⟨st.fullResponse ++ st.currentMessage, ""⟩ := by
  unfold mtProcessEvent
  rw [h]
  simp

theorem contentDelta_of_truthy (ev : Json)
    (hok : contentDeltaOk ev = true)
    (hc : jprop ev ("type") = some (Json.str ("TEXT_MESSAGE_CONTENT")))
    (ht : truthyOpt (jprop ev ("delta")) = true) :
    jsCoerceStr ((jprop ev ("delta")).getD Json.null) = contentDelta ev := by
  have hs : deltaIsStr ev = true := by
    unfold contentDeltaOk at hok
    rwa [if_pos hc] at hok
  unfold deltaIsStr at hs
  unfold contentDelta
  cases hd : jprop ev ("delta") with
  | none => rw [hd] at ht; simp [truthyOpt] at ht
  | some v =>
    rw [hd] at hs
    cases v <;> simp_all [jsCoerceStr, truthyOpt, truthy]

theorem contentDelta_of_skipped (ev : Json)
    (hok : contentDeltaOk ev = true)
    (hn : ¬(jprop ev ("type") = some (Json.str ("TEXT_MESSAGE_CONTENT"))
            ∧ truthyOpt (jprop ev ("delta")) = true)) :
    contentDelta ev = "" := by
  unfold contentDelta
  by_cases hc : jprop ev ("type") = some (Json.str ("TEXT_MESSAGE_CONTENT"))
  · have hs : deltaIsStr ev = true := by
      unfold contentDeltaOk at hok
      rwa [if_pos hc] at hok
    unfold deltaIsStr at hs
    cases hd : jprop ev ("delta") with
    | none => simp [hc]
    | some v =>
      rw [hd] at hs
      have ht : truthyOpt (jprop ev ("delta")) = false := by
        cases hq : truthyOpt (jprop ev ("delta"))
        · rfl
        · exact absurd ⟨hc, hq⟩ hn
      rw [hd] at ht
      cases v <;> simp_all [truthyOpt, truthy, hc]
  · simp [hc]

theorem mtProcessEvent_notEnd (st : MTState) (ev : Json)
    (hok : contentDeltaOk ev = true)
    (h : jprop ev ("type") ≠ some (Json.str ("TEXT_MESSAGE_END"))) :
    mtProcessEvent st ev = { st with currentMessage := st.currentMessage ++ contentDelta ev } := by
  unfold mtProcessEvent
  by_cases hc : jprop ev ("type") = some (Json.str ("TEXT_MESSAGE_CONTENT"))
      ∧ truthyOpt (jprop ev ("delta")) = true
  · rw [if_pos hc, contentDelta_of_truthy ev hok hc.1 hc.2]
  · rw [if_neg hc, if_neg h, contentDelta_of_skipped ev hok hc]
    cases st
    simp [String.append_empty]

theorem prependFirst_empty (gs : List (List Json)) :
    prependFirst "" gs = spansText gs := by
  cases gs with
  | nil => rfl
  | cons g gs => simp [prependFirst, spansText, String.empty_append]

theorem mt_fold_spans :
    ∀ (es : List Json) (full cur : String), (∀ e ∈ es, contentDeltaOk e = true) →
      es.foldl mtProcessEvent ⟨full, cur⟩ =
        ⟨full ++ prependFirst cur (completedSpans es),
         (if completedSpans es = [] then cur else "") ++ spanDeltas (openSpan es)⟩
  | [], full, cur, _ => by
    simp [completedSpans, openSpan, prependFirst, spanDeltas, String.append_empty]
  | e :: es, full, cur, h => by
    have he : contentDeltaOk e = true := h e (List.mem_cons_self e es)
    have hes : ∀ x ∈ es, contentDeltaOk x = true := fun x hx => h x (List.mem_cons_of_mem e hx)
    by_cases hEnd : jprop e ("type") = some (Json.str ("TEXT_MESSAGE_END"))
    · rw [List.foldl_cons, mtProcessEvent_end _ _ hEnd,
        mt_fold_spans es (full ++ cur) "" hes]
      simp only [completedSpans, openSpan, hEnd, if_pos, ite_self, MTState.mk.injEq]
      constructor
      · rw [prependFirst_empty]
        show full ++ cur ++ spansText (completedSpans es)
            = full ++ prependFirst cur ([] :: completedSpans es)
        simp [prependFirst, spansText, spanDeltas, String.append_empty, String.append_assoc,
          String.empty_append]
      · simp [String.empty_append]
    · rw [List.foldl_cons, mtProcessEvent_notEnd _ _ he hEnd,
        mt_fold_spans es full (cur ++ contentDelta e) hes]
      simp only [completedSpans, openSpan, hEnd, if_neg, ite_false, MTState.mk.injEq]
      cases hcs : completedSpans es with
      | nil =>
        simp [hcs, prependFirst, spanDeltas, String.append_assoc]
      | cons g gs =>
        simp [hcs, prependFirst, spansText, spanDeltas, String.append_assoc]

theorem mt_fullResponse_spans (es : List Json) (h : ∀ e ∈ es, contentDeltaOk e = true) :
    (es.foldl mtProcessEvent mtInit).fullResponse = spansText (completedSpans es) := by
  show (es.foldl mtProcessEvent ⟨"", ""⟩).fullResponse = _
  rw [mt_fold_spans es "" "" h, prependFirst_empty]
  simp [String.empty_append]

theorem tauTextProj_processEvent (st : TauState) (ev : Json) :
    (mtProcessEvent ⟨st.fullResponse, st.currentMessage⟩ ev : MTState)
      = ⟨(tauProcessEvent st ev).fullResponse, (tauProcessEvent st ev).currentMessage⟩ := by
  unfold tauProcessEvent mtProcessEvent
  split_ifs <;> rfl

theorem tau_fold_text :
    ∀ (es : List Json) (st : TauState),
      es.foldl mtProcessEvent ⟨st.fullResponse, st.currentMessage⟩
        = ⟨(es.foldl tauProcessEvent st).fullResponse,
           (es.foldl tauProcessEvent st).currentMessage⟩ := by
  intro es
  induction es with
  | nil => intro st; rfl
  | cons e es ih =>
    intro st
    rw [List.foldl_cons, List.foldl_cons, tauTextProj_processEvent, ih (tauProcessEvent st e)]

theorem tau_fullResponse_spans (es : List Json) (h : ∀ e ∈ es, contentDeltaOk e = true) :
    (es.foldl tauProcessEvent tauInit).fullResponse = spansText (completedSpans es) := by
  have := tau_fold_text es tauInit
  have h2 := mt_fullResponse_spans es h
  have : (es.foldl mtProcessEvent mtInit).fullResponse
      = (es.foldl tauProcessEvent tauInit).fullResponse := by
    rw [show (mtInit : MTState) = ⟨(tauInit : TauState).fullResponse, tauInit.currentMessage⟩ from rfl,
      tau_fold_text es tauInit]
  rw [← this, h2]

theorem tauProcessEvent_tools (st : TauState) (ev : Json) :
    (tauProcessEvent st ev).toolsUsed = st.toolsUsed ++ (toolNameOf ev).toList := by
  unfold tauProcessEvent toolNameOf
  split_ifs <;> simp

theorem tau_fold_tools :
    ∀ (es : List Json) (st : TauState),
      (es.foldl tauProcessEvent st).toolsUsed = st.toolsUsed ++ es.filterMap toolNameOf := by
  intro es
  induction es with
  | nil => intro st; simp
  | cons e es ih =>
    intro st
    rw [List.foldl_cons, ih (tauProcessEvent st e), tauProcessEvent_tools]
    cases h : toolNameOf e <;> simp [List.filterMap_cons, h]

theorem processEvent_end (st : ConverterState) (ev : Json)
    (h : jprop ev ("type") = some (Json.str ("TEXT_MESSAGE_END"))) :
    processEvent st ev = (⟨"", st.toolNames⟩, [TrajectoryStep.message st.currentMessageBuffer]) := by
  unfold processEvent
  rw [h]
  simp

theorem converterDelta_eq_contentDelta (ev : Json)
    (hc : jprop ev ("type") = some (Json.str ("TEXT_MESSAGE_CONTENT"))) :
    converterDelta ev = contentDelta ev := by
  unfold converterDelta contentDelta
  rw [hc]
  simp

theorem processEvent_notEnd (st : ConverterState) (ev : Json)
    (h : jprop ev ("type") ≠ some (Json.str ("TEXT_MESSAGE_END"))) :
    (processEvent st ev).2 = []
    ∧ (processEvent st ev).1.currentMessageBuffer = st.currentMessageBuffer ++ contentDelta ev := by
  unfold processEvent
  by_cases hc : jprop ev ("type") = some (Json.str ("TEXT_MESSAGE_CONTENT"))
  · rw [if_pos hc, converterDelta_eq_contentDelta ev hc]
    exact ⟨rfl, rfl⟩
  · have hcd : contentDelta ev = "" := by unfold contentDelta; rw [if_neg hc]
    rw [if_neg hc, if_neg h, hcd, String.append_empty]
    by_cases ht : jprop ev ("type") = some (Json.str ("TOOL_CALL_START"))
    · rw [if_pos ht]
      cases converterToolName ev <;> exact ⟨rfl, rfl⟩
    · rw [if_neg ht]
      exact ⟨rfl, rfl⟩

theorem replayGo_spans :
    ∀ (es : List Json) (st : ConverterState),
      replayGo st es = stepsFor st.currentMessageBuffer (completedSpans es)
  | [], st => by simp [replayGo, completedSpans, stepsFor]
  | e :: es, st => by
    by_cases hEnd : jprop e ("type") = some (Json.str ("TEXT_MESSAGE_END"))
    · rw [replayGo, processEvent_end st e hEnd]
      show TrajectoryStep.message st.currentMessageBuffer
          :: replayGo ⟨"", st.toolNames⟩ es = _
      rw [replayGo_spans es ⟨"", st.toolNames⟩]
      simp [completedSpans, hEnd, stepsFor, spanDeltas, String.append_empty]
    · obtain ⟨h2, h1⟩ := processEvent_notEnd st e hEnd
      rw [replayGo, h2, List.nil_append, replayGo_spans es (processEvent st e).1, h1]
      simp only [completedSpans, hEnd, ite_false, if_neg]
      cases hcs : completedSpans es with
      | nil => simp [stepsFor]
      | cons g gs => simp [stepsFor, spanDeltas, String.append_assoc]

theorem computeTrajectory_spans (es : List Json) :
    computeTrajectoryFromRawEvents es = stepsFor "" (completedSpans es) := by
  unfold computeTrajectoryFromRawEvents
  exact replayGo_spans es converterInit

theorem mtProcessEvent_full_notEnd (st : MTState) (ev : Json)
    (h : jprop ev ("type") ≠ some (Json.str ("TEXT_MESSAGE_END"))) :
    (mtProcessEvent st ev).fullResponse = st.fullResponse := by
  unfold mtProcessEvent
  split_ifs <;> rfl

theorem mt_fold_full_stable :
    ∀ (es : List Json) (st : MTState), (∀ e ∈ es, jprop e ("type") ≠ some (Json.str ("TEXT_MESSAGE_END"))) →
      (es.foldl mtProcessEvent st).fullResponse = st.fullResponse := by
  intro es
  induction es with
  | nil => intro st _; rfl
  | cons e es ih =>
    intro st h
    rw [List.foldl_cons, ih (mtProcessEvent st e) (fun x hx => h x (List.mem_cons_of_mem e hx)),
      mtProcessEvent_full_notEnd st e (h e (List.mem_cons_self e es))]

theorem replayGo_nil_of_noEnd :
    ∀ (es : List Json) (st : ConverterState),
      (∀ e ∈ es, jprop e ("type") ≠ some (Json.str ("TEXT_MESSAGE_END"))) →
      replayGo st es = [] := by
  intro es
  induction es with
  | nil => intro st _; rfl
  | cons e es ih =>
    intro st h
    obtain ⟨h2, _⟩ := processEvent_notEnd st e (h e (List.mem_cons_self e es))
    rw [replayGo, h2, List.nil_append]
    exact ih _ (fun x hx => h x (List.mem_cons_of_mem e hx))

theorem completedSpans_append_end :
    ∀ (pre : List Json), (∀ e ∈ pre, jprop e ("type") ≠ some (Json.str ("TEXT_MESSAGE_END"))) →
      ∀ ev, jprop ev ("type") = some (Json.str ("TEXT_MESSAGE_END")) →
      completedSpans (pre ++ [ev]) = [pre] := by
  intro pre
  induction pre with
  | nil => intro _ ev hev; simp [completedSpans, hev]
  | cons p pre ih =>
    intro h ev hev
    have hp : jprop p ("type") ≠ some (Json.str ("TEXT_MESSAGE_END")) :=
      h p (List.mem_cons_self p pre)
    rw [List.cons_append]
    show completedSpans (p :: (pre ++ [ev])) = [p :: pre]
    unfold completedSpans
    rw [if_neg hp, ih (fun x hx => h x (List.mem_cons_of_mem p hx)) ev hev]

theorem splitNl_ne_nil : ∀ (l : List Char), splitNl l ≠ []
  | [] => by simp [splitNl]
  | c :: cs => by
    unfold splitNl
    split_ifs
    · simp
    · cases h : splitNl cs with
      | nil => simp
      | cons g gs => simp

theorem splitNl_length_two :
    ∀ (c : List Char), endsWithNl c = true → 2 ≤ (splitNl c).length
  | [] => by simp [endsWithNl]
  | [ch] => by
    intro h
    have : ch = '\n' := by simpa [endsWithNl] using h
    simp [this, splitNl]
  | ch :: ch2 :: cs => by
    intro h
    have h2 : endsWithNl (ch2 :: cs) = true := by simpa [endsWithNl] using h
    have ih := splitNl_length_two (ch2 :: cs) h2
    unfold splitNl
    split_ifs
    · have := splitNl_ne_nil (ch2 :: cs)
      simp only [List.length_cons]
      omega
    · cases hs : splitNl (ch2 :: cs) with
      | nil => exact absurd hs (splitNl_ne_nil (ch2 :: cs))
      | cons g gs =>
        rw [hs] at ih
        simpa using ih

theorem splitNl_append_of_endsNl :
    ∀ (c : List Char), endsWithNl c = true →
      ∀ (r : List Char), splitNl (c ++ r) = (splitNl c).dropLast ++ splitNl r
  | [] => by simp [endsWithNl]
  | [ch] => by
    intro h r
    have : ch = '\n' := by simpa [endsWithNl] using h
    subst this
    simp [splitNl]
  | ch :: ch2 :: cs => by
    intro h r
    have h2 : endsWithNl (ch2 :: cs) = true := by simpa [endsWithNl] using h
    have ih := splitNl_append_of_endsNl (ch2 :: cs) h2 r
    by_cases hch : ch = '\n'
    · subst hch
      show splitNl ('\n' :: (ch2 :: cs ++ r)) = (splitNl ('\n' :: (ch2 :: cs))).dropLast ++ splitNl r
      rw [splitNl, if_pos rfl, splitNl, if_pos rfl, ih]
      have hne := splitNl_ne_nil (ch2 :: cs)
      rw [List.dropLast_cons_of_ne_nil hne]
      rfl
    · show splitNl (ch :: (ch2 :: cs ++ r)) = (splitNl (ch :: (ch2 :: cs))).dropLast ++ splitNl r
      rw [splitNl, if_neg hch, splitNl, if_neg hch, ih]
      cases hs : splitNl (ch2 :: cs) with
      | nil => exact absurd hs (splitNl_ne_nil (ch2 :: cs))
      | cons g gs =>
        cases gs with
        | nil =>
          have := splitNl_length_two (ch2 :: cs) h2
          rw [hs] at this
          simp at this
        | cons g2 gs2 =>
          simp only [List.dropLast_cons_of_ne_nil (List.cons_ne_nil g2 gs2)]
          rfl

theorem splitNl_endsNl_last :
    ∀ (c : List Char), endsWithNl c = true →
      splitNl c = (splitNl c).dropLast ++ [[]]
  | [] => by simp [endsWithNl]
  | [ch] => by
    intro h
    have : ch = '\n' := by simpa [endsWithNl] using h
    subst this
    simp [splitNl]
  | ch :: ch2 :: cs => by
    intro h
    have h2 : endsWithNl (ch2 :: cs) = true := by simpa [endsWithNl] using h
    have ih := splitNl_endsNl_last (ch2 :: cs) h2
    by_cases hch : ch = '\n'
    · subst hch
      rw [splitNl, if_pos rfl]
      conv_lhs => rw [ih]
      have hne := splitNl_ne_nil (ch2 :: cs)
      rw [List.dropLast_cons_of_ne_nil hne]
      conv_rhs => rw [ih]
      simp
    · rw [splitNl, if_neg hch]
      cases hs : splitNl (ch2 :: cs) with
      | nil => exact absurd hs (splitNl_ne_nil (ch2 :: cs))
      | cons g gs =>
        cases gs with
        | nil =>
          have := splitNl_length_two (ch2 :: cs) h2
          rw [hs] at this
          simp at this
        | cons g2 gs2 =>
          rw [hs] at ih
          have htail : g2 :: gs2 = (g2 :: gs2).dropLast ++ [[]] := by
            have := ih
            rw [List.dropLast_cons_of_ne_nil (List.cons_ne_nil g2 gs2)] at this
            simpa using this
          rw [List.dropLast_cons_of_ne_nil (List.cons_ne_nil g2 gs2)]
          conv_lhs => rw [htail]
          simp

theorem foldChunks_nl {σ : Type} (f : σ → List Char → σ) (hf : ∀ st, f st [] = st) :
    ∀ (chunks : List (List Char)) (st : σ), (∀ c ∈ chunks, endsWithNl c = true) →
      chunks.foldl (fun st c => (splitNl c).foldl f st) st
        = (splitNl chunks.flatten).foldl f st := by
  intro chunks
  induction chunks with
  | nil =>
    intro st _
    simp [splitNl, hf]
  | cons c cs ih =>
    intro st h
    have hc : endsWithNl c = true := h c (List.mem_cons_self c cs)
    rw [List.foldl_cons, List.flatten_cons,
      splitNl_append_of_endsNl c hc cs.flatten, List.foldl_append]
    have hdrop : (splitNl c).foldl f st = ((splitNl c).dropLast).foldl f st := by
      conv_lhs => rw [splitNl_endsNl_last c hc]
      rw [List.foldl_append]
      simp [hf]
    rw [hdrop]
    exact ih _ (fun x hx => h x (List.mem_cons_of_mem c hx))

theorem mtRunChunks_nlAligned (chunks : List (List Char))
    (h : ∀ c ∈ chunks, endsWithNl c = true) :
    mtRunChunks chunks = mtRunChunks [chunks.flatten] := by
  show chunks.foldl (fun st c => (splitNl c).foldl mtProcessLine st) mtInit
      = [chunks.flatten].foldl (fun st c => (splitNl c).foldl mtProcessLine st) mtInit
  rw [foldChunks_nl mtProcessLine mtProcessLine_empty chunks mtInit h]
  rfl

theorem tauRunChunks_nlAligned (chunks : List (List Char))
    (h : ∀ c ∈ chunks, endsWithNl c = true) :
    tauRunChunks chunks = tauRunChunks [chunks.flatten] := by
  show chunks.foldl (fun st c => (splitNl c).foldl tauProcessLine st) tauInit
      = [chunks.flatten].foldl (fun st c => (splitNl c).foldl tauProcessLine st) tauInit
  rw [foldChunks_nl tauProcessLine tauProcessLine_empty chunks tauInit h]
  rfl

theorem stepsFor_empty_map :
    ∀ gs : List (List Json),
      stepsFor "" gs = gs.map (fun g => TrajectoryStep.message (spanDeltas g)) := by
  intro gs
  induction gs with
  | nil => rfl
  | cons g gs ih => simp [stepsFor, ih, String.empty_append]

theorem contentDeltaOk_of_notContent (ev : Json)
    (h : jprop ev ("type") ≠ some (Json.str ("TEXT_MESSAGE_CONTENT"))) :
    contentDeltaOk ev = true := by
  unfold contentDeltaOk
  rw [if_neg h]

theorem flush_eq (f c : String) : (if c ≠ "" then f ++ c else f) = f ++ c := by
  by_cases h : c = "" <;> simp [h, String.append_empty]

theorem mtCall_ok (chunks : List (List Char)) :
    mtCallOasisAgent ⟨true, some chunks⟩
      = Except.ok
          (if jsTrim ((mtRunChunks chunks).fullResponse ++ (mtRunChunks chunks).currentMessage) = ""
           then ("No response received")
           else jsTrim ((mtRunChunks chunks).fullResponse ++ (mtRunChunks chunks).currentMessage)) := by
  show Except.ok _ = _
  rw [flush_eq]

/-- C1: the event-to-trajectory fold is a pure, deterministic function of
the decoded event sequence alone: each benchmark read loop equals the pure
fold of its event handler over the extracted event list (no dependence on
timing, wall clock, or any other state), and replaying a captured raw-event
sequence through a fresh converter (computeTrajectoryFromRawEvents, the
entry point behind OllyConnector.parseResponse) yields exactly the steps the
live OllyConnector.execute loop collected. -/
theorem c1_event_fold_deterministic_and_replayable :
    (∀ chunks : List (List Char),
      mtRunChunks chunks = (extractEvents chunks).foldl mtProcessEvent mtInit
      ∧ tauRunChunks chunks = (extractEvents chunks).foldl tauProcessEvent tauInit)
    ∧ (∀ events : List Json, executeTrajectory events = parseResponse events) :=
  ⟨fun chunks => ⟨mtRunChunks_factor chunks, tauRunChunks_factor chunks⟩,
   executeTrajectory_eq_replay⟩

/-- C5: a line whose unwrapping fails at any step decodes to no event, and
processing it changes nothing in either read loop; surrounding lines are
processed exactly as if the failing line were absent. In the embedding every
line handler is a total function, the image of the code's per-frame
try/catch swallowing every failure. -/
theorem c5_malformed_frame_skipped (line : List Char)
    (h : decodeDataLine line = none) :
    (∀ st : MTState, mtProcessLine st line = st)
    ∧ (∀ st : TauState, tauProcessLine st line = st)
    ∧ (∀ (pre post : List (List Char)) (st : MTState),
        (pre ++ line :: post).foldl mtProcessLine st = (pre ++ post).foldl mtProcessLine st)
    ∧ (∀ (pre post : List (List Char)) (st : TauState),
        (pre ++ line :: post).foldl tauProcessLine st = (pre ++ post).foldl tauProcessLine st) := by
  refine ⟨fun st => mtProcessLine_none st line h,
    fun st => tauProcessLine_none st line h, fun pre post st => ?_, fun pre post st => ?_⟩
  · rw [List.foldl_append, List.foldl_append, List.foldl_cons, mtProcessLine_none _ line h]
  · rw [List.foldl_append, List.foldl_append, List.foldl_cons, tauProcessLine_none _ line h]

/-- C5 witness: "data: not-json" (the marker followed by invalid JSON), a
frame with no inference_results, a frame whose outputs hold no entry named
response, and a well-formed envelope whose content is not JSON all decode to
no event, and processing the first one leaves a concrete accumulator
unchanged. -/
theorem c5_malformed_frame_witness :
    decodeDataLine (("data: not-json").toList) = none
    ∧ decodeDataLine (("data: \x7b\x7d").toList) = none
    ∧ decodeDataLine
        (("data: \x7b\"inference_results\":[\x7b\"output\":[\x7b\"name\":\"other\"\x7d]\x7d]\x7d").toList) = none
    ∧ decodeDataLine (frameLine ("not-json")) = none
    ∧ mtProcessLine ⟨"resp", "cur"⟩ (("data: not-json").toList) = ⟨"resp", "cur"⟩
    ∧ ([frameLine contentHiStr] ++ ("data: not-json").toList :: [frameLine endEvStr]).foldl
        mtProcessLine mtInit
      = ([frameLine contentHiStr] ++ [frameLine endEvStr]).foldl mtProcessLine mtInit := by
  refine ⟨by decide, by decide, by decide, by decide, ?_, ?_⟩
  · exact (c5_malformed_frame_skipped (("data: not-json").toList) (by decide)).1 ⟨"resp", "cur"⟩
  · exact (c5_malformed_frame_skipped (("data: not-json").toList) (by decide)).2.2.1
      [frameLine contentHiStr] [frameLine endEvStr] mtInit

/-- C6: an event of any unrecognized type is a no-op for both read loops
and for the spec-modelled converter: no error (the handlers are total
functions), no state change, no step, and the rest of the sequence is
processed exactly as if the event were absent. -/
theorem c6_unknown_event_noop (ev : Json)
    (h1 : jprop ev ("type") ≠ some (Json.str ("TEXT_MESSAGE_CONTENT")))
    (h2 : jprop ev ("type") ≠ some (Json.str ("TEXT_MESSAGE_END")))
    (h3 : jprop ev ("type") ≠ some (Json.str ("TOOL_CALL_START"))) :
    (∀ st : MTState, mtProcessEvent st ev = st)
    ∧ (∀ st : TauState, tauProcessEvent st ev = st)
    ∧ (∀ st : ConverterState, processEvent st ev = (st, []))
    ∧ (∀ (pre post : List Json) (st : MTState),
        (pre ++ ev :: post).foldl mtProcessEvent st = (pre ++ post).foldl mtProcessEvent st)
    ∧ (∀ (pre post : List Json) (st : TauState),
        (pre ++ ev :: post).foldl tauProcessEvent st = (pre ++ post).foldl tauProcessEvent st) := by
  have hmt : ∀ st : MTState, mtProcessEvent st ev = st := by
    intro st
    unfold mtProcessEvent
    rw [if_neg (fun hc => h1 hc.1), if_neg h2]
  have htau : ∀ st : TauState, tauProcessEvent st ev = st := by
    intro st
    unfold tauProcessEvent
    rw [if_neg (fun hc => h1 hc.1), if_neg h2, if_neg (fun hc => h3 hc.1)]
  refine ⟨hmt, htau, ?_, ?_, ?_⟩
  · intro st
    unfold processEvent
    rw [if_neg h1, if_neg h2, if_neg h3]
  · intro pre post st
    rw [List.foldl_append, List.foldl_append, List.foldl_cons, hmt]
  · intro pre post st
    rw [List.foldl_append, List.foldl_append, List.foldl_cons, htau]

/-- C6 witness: a SOMETHING_UNKNOWN event leaves concrete accumulators of
both loops and of the converter unchanged, and a sequence holding it in
front of a START/CONTENT/CONTENT/END run folds exactly as the run alone. -/
theorem c6_unknown_event_witness :
    mtProcessEvent ⟨"resp", "cur"⟩ evUnknown = ⟨"resp", "cur"⟩
    ∧ tauProcessEvent ⟨"resp", "cur", [evToolA]⟩ evUnknown = ⟨"resp", "cur", [evToolA]⟩
    ∧ processEvent ⟨"buf", []⟩ evUnknown = (⟨"buf", []⟩, [])
    ∧ ([] ++ evUnknown :: [evStart, evHel, evLo, evEnd]).foldl mtProcessEvent mtInit
        = ([] ++ [evStart, evHel, evLo, evEnd]).foldl mtProcessEvent mtInit := by
  have h := c6_unknown_event_noop evUnknown (by decide) (by decide) (by decide)
  exact ⟨h.1 ⟨"resp", "cur"⟩, h.2.1 ⟨"resp", "cur", [evToolA]⟩, h.2.2.1 ⟨"buf", []⟩,
    h.2.2.2.1 [] [evStart, evHel, evLo, evEnd] mtInit⟩

/-- C7: a non-ok status or an absent body makes both agent calls return an
error before any event is processed — the error carries no partial text and
no tool list — while an ok response with a body always yields a successful
result: once streaming has begun no per-frame failure can fail the call,
since the read loops are total. -/
theorem c7_setup_failure_vs_streaming (resp : HttpResponse) :
    ((resp.ok = false ∨ resp.body = none) →
      (∃ msg, mtCallOasisAgent resp = Except.error msg)
      ∧ (∃ msg, tauCallOasisAgent resp = Except.error msg))
    ∧ (∀ chunks, resp.ok = true → resp.body = some chunks →
      (∃ r, mtCallOasisAgent resp = Except.ok r)
      ∧ (∃ rt, tauCallOasisAgent resp = Except.ok rt)) := by
  obtain ⟨ok, body⟩ := resp
  constructor
  · intro h
    cases ok with
    | false =>
      refine ⟨⟨("Agent error"), by rfl⟩, ⟨("Agent request failed"), ?_⟩⟩
      unfold tauCallOasisAgent
      rw [if_pos (Or.inl rfl)]
    | true =>
      have hb : body = none := h.resolve_left (by simp)
      subst hb
      exact ⟨⟨("No response body"), by rfl⟩, ⟨("Agent request failed"), by rfl⟩⟩
  · intro chunks hok hbody
    subst hok
    simp only at hbody
    subst hbody
    refine ⟨⟨_, mtCall_ok chunks⟩, ⟨((tauRunChunks chunks).fullResponse, (tauRunChunks chunks).toolsUsed), ?_⟩⟩
    rfl

/-- C7 witness: a failed-status response and a missing-body response are
errors for both calls; an ok response with an empty body list succeeds. -/
theorem c7_setup_failure_witness :
    ((∃ msg, mtCallOasisAgent ⟨false, none⟩ = Except.error msg)
      ∧ (∃ msg, tauCallOasisAgent ⟨false, none⟩ = Except.error msg))
    ∧ ((∃ msg, mtCallOasisAgent ⟨true, none⟩ = Except.error msg)
      ∧ (∃ msg, tauCallOasisAgent ⟨true, none⟩ = Except.error msg))
    ∧ ((∃ r, mtCallOasisAgent ⟨true, some []⟩ = Except.ok r)
      ∧ (∃ rt, tauCallOasisAgent ⟨true, some []⟩ = Except.ok rt)) :=
  ⟨(c7_setup_failure_vs_streaming ⟨false, none⟩).1 (Or.inl rfl),
   (c7_setup_failure_vs_streaming ⟨true, none⟩).1 (Or.inr rfl),
   (c7_setup_failure_vs_streaming ⟨true, some []⟩).2 [] rfl rfl⟩

/-- C8: the tau-bench tools list is exactly the in-order list of the
toolCallName values of TOOL_CALL_START events with a truthy name, appended
eagerly as each start event is processed; a TOOL_CALL_START without a name
contributes nothing, and no other event type (tool end or args events
included) ever touches the list. -/
theorem c8_tool_names_eager_in_order :
    (∀ es : List Json,
      (es.foldl tauProcessEvent tauInit).toolsUsed = es.filterMap toolNameOf)
    ∧ (∀ (st : TauState) (ev : Json),
      (tauProcessEvent st ev).toolsUsed = st.toolsUsed ++ (toolNameOf ev).toList)
    ∧ (∀ chunks : List (List Char),
      (tauRunChunks chunks).toolsUsed = (extractEvents chunks).filterMap toolNameOf)
    ∧ toolNameOf evToolA = some (Json.str ("search_index"))
    ∧ toolNameOf evToolAnon = none
    ∧ toolNameOf evToolEnd = none := by
  refine ⟨fun es => ?_, tauProcessEvent_tools, fun chunks => ?_, by decide, by decide, by decide⟩
  · rw [tau_fold_tools es tauInit]
    rfl
  · rw [tauRunChunks_factor, tau_fold_tools]
    rfl

theorem mtProcessEvent_noop (st : MTState) (ev : Json)
    (h1 : jprop ev ("type") ≠ some (Json.str ("TEXT_MESSAGE_CONTENT")))
    (h2 : jprop ev ("type") ≠ some (Json.str ("TEXT_MESSAGE_END"))) :
    mtProcessEvent st ev = st := by
  unfold mtProcessEvent
  rw [if_neg (fun hc => h1 hc.1), if_neg h2]

theorem tauProcessEvent_noop (st : TauState) (ev : Json)
    (h1 : jprop ev ("type") ≠ some (Json.str ("TEXT_MESSAGE_CONTENT")))
    (h2 : jprop ev ("type") ≠ some (Json.str ("TEXT_MESSAGE_END")))
    (h3 : jprop ev ("type") ≠ some (Json.str ("TOOL_CALL_START"))) :
    tauProcessEvent st ev = st := by
  unfold tauProcessEvent
  rw [if_neg (fun hc => h1 hc.1), if_neg h2, if_neg (fun hc => h3 hc.1)]

theorem filterMap_splitNl_nlAligned :
    ∀ (chunks : List (List Char)), (∀ c ∈ chunks, endsWithNl c = true) →
      ((chunks.map splitNl).flatten).filterMap decodeDataLine
        = (splitNl chunks.flatten).filterMap decodeDataLine := by
  intro chunks
  induction chunks with
  | nil =>
    intro _
    simp [splitNl, List.filterMap_cons, decodeDataLine_empty]
  | cons c cs ih =>
    intro h
    have hc : endsWithNl c = true := h c (List.mem_cons_self c cs)
    rw [List.map_cons, List.flatten_cons, List.filterMap_append,
      ih (fun x hx => h x (List.mem_cons_of_mem c hx)), List.flatten_cons,
      splitNl_append_of_endsNl c hc cs.flatten, List.filterMap_append]
    have hhead : (splitNl c).filterMap decodeDataLine
        = ((splitNl c).dropLast).filterMap decodeDataLine := by
      conv_lhs => rw [splitNl_endsNl_last c hc]
      rw [List.filterMap_append]
      simp [List.filterMap_cons, decodeDataLine_empty]
    rw [hhead]

theorem extractEvents_nlAligned (chunks : List (List Char))
    (h : ∀ c ∈ chunks, endsWithNl c = true) :
    extractEvents chunks = extractEvents [chunks.flatten] := by
  unfold extractEvents
  rw [filterMap_splitNl_nlAligned chunks h]
  simp

/-- C2: the text a completed span yields equals the exact concatenation, in
arrival order, of the deltas of its TEXT_MESSAGE_CONTENT events (for events
whose delta fields are strings, the protocol's typing): a span closed by a
TEXT_MESSAGE_END contributes exactly that concatenation to fullResponse in
the MT-Bench fold and exactly one such step from the spec-modelled
converter, and in general the exposed response text of both read loops is
the in-order concatenation of the texts of the completed spans, as is the
converter's step list. -/
theorem c2_span_text_is_delta_concatenation (pre es : List Json) (endEv : Json)
    (hpreOk : ∀ e ∈ pre, contentDeltaOk e = true)
    (hpre : ∀ e ∈ pre, jprop e ("type") ≠ some (Json.str ("TEXT_MESSAGE_END")))
    (hend : jprop endEv ("type") = some (Json.str ("TEXT_MESSAGE_END")))
    (hok : ∀ e ∈ es, contentDeltaOk e = true) :
    ((pre ++ [endEv]).foldl mtProcessEvent mtInit).fullResponse = spanDeltas pre
    ∧ computeTrajectoryFromRawEvents (pre ++ [endEv])
        = [TrajectoryStep.message (spanDeltas pre)]
    ∧ (es.foldl mtProcessEvent mtInit).fullResponse = spansText (completedSpans es)
    ∧ (es.foldl tauProcessEvent tauInit).fullResponse = spansText (completedSpans es)
    ∧ computeTrajectoryFromRawEvents es
        = (completedSpans es).map (fun g => TrajectoryStep.message (spanDeltas g)) := by
  have hendOk : contentDeltaOk endEv = true := by
    apply contentDeltaOk_of_notContent
    rw [hend]
    decide
  have hallOk : ∀ e ∈ pre ++ [endEv], contentDeltaOk e = true := by
    intro e he
    rcases List.mem_append.mp he with hmem | hmem
    · exact hpreOk e hmem
    · rw [List.mem_singleton.mp hmem]
      exact hendOk
  have hcs := completedSpans_append_end pre hpre endEv hend
  refine ⟨?_, ?_, mt_fullResponse_spans es hok, tau_fullResponse_spans es hok, ?_⟩
  · rw [mt_fullResponse_spans _ hallOk, hcs]
    simp [spansText, String.append_empty]
  · rw [computeTrajectory_spans, hcs]
    simp [stepsFor, String.empty_append]
  · rw [computeTrajectory_spans, stepsFor_empty_map]

/-- C2 witness: the spec's P2 scenario — START, "Hel", "lo", END — yields
response text and single step text "Hello", the concatenation of the two
deltas. -/
theorem c2_span_text_witness :
    (([evStart, evHel, evLo] ++ [evEnd]).foldl mtProcessEvent mtInit).fullResponse
        = spanDeltas [evStart, evHel, evLo]
    ∧ computeTrajectoryFromRawEvents ([evStart, evHel, evLo] ++ [evEnd])
        = [TrajectoryStep.message (spanDeltas [evStart, evHel, evLo])]
    ∧ spanDeltas [evStart, evHel, evLo] = ("Hello") := by
  have h := c2_span_text_is_delta_concatenation [evStart, evHel, evLo] [] evEnd
    (by decide) (by decide) (by decide) (by decide)
  exact ⟨h.1, h.2.1, by decide⟩

set_option maxRecDepth 100000 in
/-- C3 counterexample: the claim fails on the code — the read loops split
each transport chunk on newlines separately, with no carry-over buffer, so
two chunkings of the same bytes give different results. Splitting the same
two-frame text after its twentieth character cuts the content frame's line
in two: neither half decodes, the content event is lost, and the call
answers the sentinel instead of "Hi"; the decoded event sequences differ
too. -/
theorem c3_chunking_counterexample :
    c3partA ++ c3partB = c3whole
    ∧ mtCallOasisAgent ⟨true, some [c3whole]⟩ = Except.ok ("Hi")
    ∧ mtCallOasisAgent ⟨true, some [c3partA, c3partB]⟩
        = Except.ok ("No response received")
    ∧ extractEvents [c3whole] ≠ extractEvents [c3partA, c3partB] :=
  ⟨by decide, by rfl, by rfl, by decide⟩

/-- C3 amended: decoding is per chunk — a data line split across two chunks
is not reassembled and yields no event — so chunking-independence holds
exactly when chunk boundaries align with line boundaries: when every chunk
ends with a newline, both read loops and the decoded event sequence agree
with processing the whole concatenated byte stream as one chunk (and hence
any two line-aligned chunkings of the same bytes agree). -/
theorem c3_chunking_independence_line_aligned (chunks : List (List Char))
    (h : ∀ c ∈ chunks, endsWithNl c = true) :
    mtRunChunks chunks = mtRunChunks [chunks.flatten]
    ∧ tauRunChunks chunks = tauRunChunks [chunks.flatten]
    ∧ extractEvents chunks = extractEvents [chunks.flatten] :=
  ⟨mtRunChunks_nlAligned chunks h, tauRunChunks_nlAligned chunks h,
   extractEvents_nlAligned chunks h⟩

set_option maxRecDepth 100000 in
/-- C3 witness: two newline-terminated chunks carrying one frame each
process exactly as their concatenation. -/
theorem c3_chunking_line_aligned_witness :
    mtRunChunks [frameLine contentHiStr ++ ['\n'], frameLine endEvStr ++ ['\n']]
      = mtRunChunks [[frameLine contentHiStr ++ ['\n'], frameLine endEvStr ++ ['\n']].flatten]
    ∧ extractEvents [frameLine contentHiStr ++ ['\n'], frameLine endEvStr ++ ['\n']]
      = extractEvents [[frameLine contentHiStr ++ ['\n'], frameLine endEvStr ++ ['\n']].flatten] := by
  have h := c3_chunking_independence_line_aligned
    [frameLine contentHiStr ++ ['\n'], frameLine endEvStr ++ ['\n']] (by decide)
  exact ⟨h.1, h.2.2⟩

set_option maxRecDepth 100000 in
/-- C4 counterexample: the claim fails on the MT-Bench call — a stream whose
only event is an unterminated content delta ("Hi" with no TEXT_MESSAGE_END)
returns "Hi": the dangling span's content is flushed into the response (the
code's "Add any remaining message" step), not discarded. -/
theorem c4_unflushed_span_counterexample :
    extractEvents c4chunks = [evHi]
    ∧ mtCallOasisAgent ⟨true, some c4chunks⟩ = Except.ok ("Hi") :=
  ⟨by decide, by rfl⟩

/-- C4 amended: a span still open at end of stream yields zero trajectory
steps from the spec-modelled converter and contributes nothing to the
tau-bench response (which returns fullResponse only), but the MT-Bench call
appends the remaining message to the response before trimming, so there the
unfinished content does reach the caller. -/
theorem c4_open_span_discarded_amended (es : List Json) (chunks : List (List Char))
    (h : ∀ e ∈ es, jprop e ("type") ≠ some (Json.str ("TEXT_MESSAGE_END"))) :
    (es.foldl tauProcessEvent tauInit).fullResponse = ""
    ∧ computeTrajectoryFromRawEvents es = []
    ∧ mtCallOasisAgent ⟨true, some chunks⟩
        = Except.ok
            (if jsTrim ((mtRunChunks chunks).fullResponse ++ (mtRunChunks chunks).currentMessage) = ""
             then ("No response received")
             else jsTrim ((mtRunChunks chunks).fullResponse ++ (mtRunChunks chunks).currentMessage)) := by
  refine ⟨?_, replayGo_nil_of_noEnd es converterInit h, mtCall_ok chunks⟩
  have h2 := mt_fold_full_stable es
    ⟨(tauInit : TauState).fullResponse, (tauInit : TauState).currentMessage⟩ h
  rw [tau_fold_text es tauInit] at h2
  simpa using h2

set_option maxRecDepth 100000 in
/-- C4 witness: a START then a lone "Hi" delta yield an empty tau-bench
response and no converter steps, while the MT-Bench call on the concrete
unterminated stream follows the flush-then-trim form. -/
theorem c4_open_span_discarded_witness :
    (([evStart, evHi]).foldl tauProcessEvent tauInit).fullResponse = ""
    ∧ computeTrajectoryFromRawEvents [evStart, evHi] = []
    ∧ mtCallOasisAgent ⟨true, some c4chunks⟩
        = Except.ok
            (if jsTrim ((mtRunChunks c4chunks).fullResponse ++ (mtRunChunks c4chunks).currentMessage) = ""
             then ("No response received")
             else jsTrim ((mtRunChunks c4chunks).fullResponse ++ (mtRunChunks c4chunks).currentMessage)) :=
  c4_open_span_discarded_amended [evStart, evHi] c4chunks (by decide)

/-- C9: the folds keep no open-span flag — TEXT_MESSAGE_START is a pure
no-op in both read loops, a TEXT_MESSAGE_CONTENT event with a nonempty
string delta is accumulated into the buffer from any state, a preceding
START or not, and a TEXT_MESSAGE_END on an empty buffer flushes the empty
string, leaving the state (and so the output text) unchanged. -/
theorem c9_start_noop_content_unconditional (evS evC evE : Json) (s : String)
    (hS : jprop evS ("type") = some (Json.str ("TEXT_MESSAGE_START")))
    (hC : jprop evC ("type") = some (Json.str ("TEXT_MESSAGE_CONTENT")))
    (hCd : jprop evC ("delta") = some (Json.str s))
    (hs : s ≠ "")
    (hE : jprop evE ("type") = some (Json.str ("TEXT_MESSAGE_END"))) :
    (∀ st : MTState, mtProcessEvent st evS = st)
    ∧ (∀ st : TauState, tauProcessEvent st evS = st)
    ∧ (∀ st : MTState,
        mtProcessEvent st evC = { st with currentMessage := st.currentMessage ++ s })
    ∧ (∀ full : String, mtProcessEvent ⟨full, ""⟩ evE = ⟨full, ""⟩) := by
  have hne1 : jprop evS ("type") ≠ some (Json.str ("TEXT_MESSAGE_CONTENT")) := by
    rw [hS]; decide
  have hne2 : jprop evS ("type") ≠ some (Json.str ("TEXT_MESSAGE_END")) := by
    rw [hS]; decide
  have hne3 : jprop evS ("type") ≠ some (Json.str ("TOOL_CALL_START")) := by
    rw [hS]; decide
  refine ⟨fun st => mtProcessEvent_noop st evS hne1 hne2,
    fun st => tauProcessEvent_noop st evS hne1 hne2 hne3, fun st => ?_, fun full => ?_⟩
  · have hcond : jprop evC ("type") = some (Json.str ("TEXT_MESSAGE_CONTENT"))
        ∧ truthyOpt (jprop evC ("delta")) = true := by
      refine ⟨hC, ?_⟩
      rw [hCd]
      simpa [truthyOpt, truthy] using hs
    unfold mtProcessEvent
    rw [if_pos hcond, hCd]
    rfl
  · rw [mtProcessEvent_end _ _ hE]
    simp [String.append_empty]

/-- C9 witness: from a buffer already holding text and no START seen, a "Hi"
delta is appended; START leaves concrete states of both loops unchanged; END
on an empty buffer changes nothing. -/
theorem c9_start_noop_witness :
    mtProcessEvent ⟨"f", "c"⟩ evStart = ⟨"f", "c"⟩
    ∧ tauProcessEvent ⟨"f", "c", []⟩ evStart = ⟨"f", "c", []⟩
    ∧ mtProcessEvent ⟨"f", "c"⟩ evHi = ⟨"f", "cHi"⟩
    ∧ mtProcessEvent ⟨"f", ""⟩ evEnd = ⟨"f", ""⟩ := by
  have h := c9_start_noop_content_unconditional evStart evHi evEnd ("Hi")
    (by decide) (by decide) (by decide) (by decide) (by decide)
  refine ⟨h.1 ⟨"f", "c"⟩, h.2.1 ⟨"f", "c", []⟩, ?_, h.2.2.2 ("f")⟩
  rw [h.2.2.1 ⟨"f", "c"⟩]
  rfl

set_option maxRecDepth 100000 in
/-- C10: for any stream the MT-Bench call answers the trimmed accumulated
text (the fold's fullResponse with the remaining message appended), and the
sentinel exactly when that trimmed text is empty; an event-free stream, an
all-whitespace reply and a reply that literally says "No response received"
are indistinguishable to the caller: all three answer the sentinel string. -/
theorem c10_trimmed_response_with_sentinel :
    (∀ chunks : List (List Char),
      mtCallOasisAgent ⟨true, some chunks⟩
        = Except.ok
            (if jsTrim ((mtRunChunks chunks).fullResponse ++ (mtRunChunks chunks).currentMessage) = ""
             then ("No response received")
             else jsTrim ((mtRunChunks chunks).fullResponse ++ (mtRunChunks chunks).currentMessage)))
    ∧ mtCallOasisAgent ⟨true, some []⟩ = Except.ok ("No response received")
    ∧ mtCallOasisAgent ⟨true, some c10wsChunks⟩ = Except.ok ("No response received")
    ∧ mtCallOasisAgent ⟨true, some c10sentinelChunks⟩
        = Except.ok ("No response received") :=
  ⟨mtCall_ok, by rfl, by rfl, by rfl⟩
